import Mathlib

/-!
Verification of the clawdbot/skills repository against its specification.

The development shallowly embeds, in Lean, the parts of the repository that
the checked claims are about:

* the SudokuPad classic compact codec `zipClassicSudoku2` (JS, unnamed part);
* the plan2meal skill's message routing (`routeCommand`) and authentication
  gate (`handleMessage`) from `skills/okikesolutions/plan2meal/src/index.js`;
* the iCloud Reminders CloudKit store client.  The repository carries only the
  skill's documentation (`skills/worflor/icloud-reminders/SKILL.md`); the
  Python client it describes is not part of the source tree, so those
  operations are modelled from the specification's words, as recorded in each
  definition's doc comment.

JS machine integers do not overflow in any embedded code path (all arithmetic
stays far below 2^53), so numbers are embedded as `Nat`.
-/

/-! ## SudokuPad classic compact codec (`zipClassicSudoku2`) -/

/-- The 60-character lookup table used by the codec: entry `d + 10*b` encodes
digit `d` preceded by `b` blanks. -/
def blankEncodes : List Char :=
  "0123456789ABCDEFGHIJKLMNOPQRSTUVWXYZabcdefghijklmnopqrstuvwx".data

/-- The JS `isDigit` helper: true for characters '1'..'9' (codes 49..57). -/
def isDigit19 (c : Char) : Bool :=
  49 ≤ c.toNat && c.toNat ≤ 57

/-- `Number(digit)` for a single-character digit string '0'..'9'. -/
def digitVal (c : Char) : Nat := c.toNat - 48

/-- The loop body of `zipClassicSudoku2`, starting from index 1 of the input:
`digit` is the pending digit, `blanks` counts the zeros seen since then.
A table lookup `blankEncodes[i]` is embedded as `blankEncodes[i]?`, so an
out-of-bounds access (JS `undefined`) would surface as `none` in the output. -/
def zipLoop : List Char → Char → Nat → List (Option Char)
  | [], digit, blanks => [blankEncodes[digitVal digit + blanks * 10]?]
  | c :: rest, digit, blanks =>
    let next := if isDigit19 c then c else '0'
    if blanks == 5 || next != '0' then
      blankEncodes[digitVal digit + blanks * 10]? :: zipLoop rest next 0
    else
      zipLoop rest digit (blanks + 1)

/-- `zipClassicSudoku2` from the unnamed SudokuPad encoder source: run-length
encodes a puzzle string, characters other than '1'..'9' counting as blanks. -/
def zipClassicSudoku2 : List Char → List (Option Char)
  | [] => []
  | c :: rest => zipLoop rest (if isDigit19 c then c else '0') 0

theorem digitVal_le_nine (c : Char) : digitVal (if isDigit19 c then c else '0') ≤ 9 := by
  by_cases h : isDigit19 c = true
  · simp only [h, if_true]
    simp only [isDigit19, Bool.and_eq_true, decide_eq_true_eq] at h
    simp only [digitVal]
    omega
  · simp only [h]
    simp [digitVal]

theorem zipLoop_isSome (chars : List Char) :
    ∀ digit blanks, digitVal digit ≤ 9 → blanks ≤ 5 →
    ∀ o ∈ zipLoop chars digit blanks, o.isSome := by
  induction chars with
  | nil =>
    intro digit blanks hd hb o ho
    simp only [zipLoop, List.mem_singleton] at ho
    subst ho
    have hlt : digitVal digit + blanks * 10 < blankEncodes.length := by
      have : blankEncodes.length = 60 := by decide
      omega
    simp [List.getElem?_eq_getElem hlt]
  | cons c rest ih =>
    intro digit blanks hd hb o ho
    simp only [zipLoop] at ho
    by_cases hflush : (blanks == 5 || (if isDigit19 c then c else '0') != '0') = true
    · rw [if_pos hflush] at ho
      rcases List.mem_cons.mp ho with h | h
      · subst h
        have hlt : digitVal digit + blanks * 10 < blankEncodes.length := by
          have : blankEncodes.length = 60 := by decide
          omega
        simp [List.getElem?_eq_getElem hlt]
      · exact ih _ 0 (digitVal_le_nine c) (by omega) o h
    · rw [if_neg hflush] at ho
      have hb5 : blanks ≠ 5 := by
        intro h
        subst h
        simp at hflush
      exact ih digit (blanks + 1) hd (by omega) o ho

/-- C8: `zipClassicSudoku2` is total, its lookup table has 60 characters, and
every table lookup is in bounds, so no output character is ever `undefined`. -/
theorem zipClassicSudoku2_total_in_bounds (puzzle : List Char) :
    blankEncodes.length = 60 ∧ ∀ o ∈ zipClassicSudoku2 puzzle, o.isSome := by
  refine ⟨by decide, ?_⟩
  match puzzle with
  | [] => intro o ho; simp [zipClassicSudoku2] at ho
  | c :: rest =>
    intro o ho
    exact zipLoop_isSome rest _ 0 (digitVal_le_nine c) (by omega) o ho

/-- Witness for C8: at the concrete puzzle "12" the first output character is
defined. -/
theorem zipClassicSudoku2_total_in_bounds_witness : (some '1' : Option Char).isSome :=
  (zipClassicSudoku2_total_in_bounds ['1', '2']).2 (some '1') (by decide)

/-! ## plan2meal message routing (`skills/okikesolutions/plan2meal/src/index.js`)

The command patterns are JS regexes over a case-insensitive literal skeleton
(`/^plan2meal\s+add\s+(.+)$/i` and the like).  They are embedded below as
executable matchers over `List Char`, following ECMAScript semantics for the
constructs they use: the `\s` class, the `.` atom (anything but a line
terminator), greedy-with-backtracking `\s+` before `(.+)$`, and ASCII
case-insensitive literal matching. -/

/-- ECMAScript whitespace class `\s`: WhiteSpace plus LineTerminator. -/
def isJsWS (c : Char) : Bool :=
  c.toNat = 0x9 || c.toNat = 0xa || c.toNat = 0xb || c.toNat = 0xc || c.toNat = 0xd ||
  c.toNat = 0x20 || c.toNat = 0xa0 || c.toNat = 0x1680 ||
  (0x2000 ≤ c.toNat && c.toNat ≤ 0x200a) ||
  c.toNat = 0x2028 || c.toNat = 0x2029 || c.toNat = 0x202f || c.toNat = 0x205f ||
  c.toNat = 0x3000 || c.toNat = 0xfeff

/-- ECMAScript LineTerminator set (what `.` does not match without the s flag). -/
def isLineTerm (c : Char) : Bool :=
  c.toNat = 0xa || c.toNat = 0xd || c.toNat = 0x2028 || c.toNat = 0x2029

/-- JS `String.prototype.trim`. -/
def jsTrim (s : List Char) : List Char :=
  ((s.dropWhile isJsWS).reverse.dropWhile isJsWS).reverse

/-- JS `String.prototype.startsWith` on character lists. -/
def leadMatch : List Char → List Char → Bool
  | [], _ => true
  | _ :: _, [] => false
  | p :: ps, c :: cs => (p == c) && leadMatch ps cs

/-- JS `String.prototype.includes` on character lists. -/
def hasSub (pat : List Char) : List Char → Bool
  | [] => leadMatch pat []
  | c :: cs => leadMatch pat (c :: cs) || hasSub pat cs

/-- One pattern character (taken from an ASCII-lowercase literal) matched
case-insensitively against an input character, per ECMAScript `i`-flag
canonicalisation (non-ASCII inputs never fold onto ASCII pattern letters). -/
def ciCharMatch (l c : Char) : Bool :=
  c == l || (l.isLower && c == l.toUpper)

/-- Consume a case-insensitive literal; returns the rest of the input. -/
def ciLead : List Char → List Char → Option (List Char)
  | [], s => some s
  | _ :: _, [] => none
  | l :: ls, c :: cs => if ciCharMatch l c then ciLead ls cs else none

/-- `\s+` directly before an atom that cannot match whitespace: the boundary
is forced, so consume one whitespace character then the maximal run. -/
def wsPlusThen (s : List Char) : Option (List Char) :=
  match s with
  | c :: cs => if isJsWS c then some (cs.dropWhile isJsWS) else none
  | [] => none

/-- `(.+)$`: nonempty and free of line terminators. -/
def dotPlus (s : List Char) : Bool :=
  !s.isEmpty && s.all (fun c => !isLineTerm c)

/-- `\s+(.+)$` with greedy backtracking: prefer the longest whitespace run
whose remainder still matches `(.+)$`; returns the capture. -/
def matchWsCapture : List Char → Option (List Char)
  | [] => none
  | c :: cs =>
    if isJsWS c then
      match matchWsCapture cs with
      | some cap => some cap
      | none => if dotPlus cs then some cs else none
    else none

/-- `\s+(\S+)\s+(\S+)$`: both whitespace boundaries are forced because `\S`
cannot match whitespace; returns the two captures. -/
def matchTwoArgs (s : List Char) : Option (List Char × List Char) :=
  match wsPlusThen s with
  | none => none
  | some r1 =>
    let a := r1.takeWhile (fun c => !isJsWS c)
    let r2 := r1.dropWhile (fun c => !isJsWS c)
    if a.isEmpty then none
    else
      match wsPlusThen r2 with
      | none => none
      | some r3 =>
        if r3.isEmpty then none
        else if r3.all (fun c => !isJsWS c) then some (a, r3) else none

def plan2mealLit : List Char := "plan2meal".data

/-- `/^plan2meal\s+<sub>\s+(.+)$/i`: returns the capture. -/
def matchCmdArg (sub : List Char) (s : List Char) : Option (List Char) :=
  match ciLead plan2mealLit s with
  | none => none
  | some r1 =>
    match wsPlusThen r1 with
    | none => none
    | some r2 =>
      match ciLead sub r2 with
      | none => none
      | some r3 => matchWsCapture r3

/-- `/^plan2meal\s+<sub>$/i`. -/
def matchCmdExact (sub : List Char) (s : List Char) : Bool :=
  match ciLead plan2mealLit s with
  | none => false
  | some r1 =>
    match wsPlusThen r1 with
    | none => false
    | some r2 =>
      match ciLead sub r2 with
      | none => false
      | some r3 => r3.isEmpty

/-- `/^plan2meal\s+list-add\s+(\S+)\s+(\S+)$/i`: returns the two captures. -/
def matchListAdd (s : List Char) : Option (List Char × List Char) :=
  match ciLead plan2mealLit s with
  | none => none
  | some r1 =>
    match wsPlusThen r1 with
    | none => none
    | some r2 =>
      match ciLead "list-add".data r2 with
      | none => none
      | some r3 => matchTwoArgs r3

/-- A response returned by `routeCommand`: either a direct reply object or a
call into one of the backend command handlers (`cmd.<handler>(...)`). -/
inductive RouteResult where
  | reply (text : String)
  | call (handler : String) (args : List String)
deriving DecidableEq

def RouteResult.isCall : RouteResult → Bool
  | .reply _ => false
  | .call _ _ => true

def unknownCommandMsg : String :=
  "❌ Unknown command. Type `plan2meal help` for available commands."

def invalidUrlMsg : String :=
  "❌ Invalid URL. Please provide a valid recipe URL."

/-- `routeCommand(text, githubToken)` from `index.js`.  The WHATWG URL parser
behind `isValidUrl` is passed in as an abstract predicate `u`. -/
def routeCommand (u : String → Bool) (text : String) (githubToken : String) : RouteResult :=
  match matchCmdArg "add".data text.data with
  | some cap =>
    let url := String.mk (jsTrim cap)
    if u url then .call "addRecipe" [githubToken, url] else .reply invalidUrlMsg
  | none =>
    if matchCmdExact "list".data text.data then .call "listRecipes" [githubToken]
    else
      match matchCmdArg "search".data text.data with
      | some cap => .call "searchRecipes" [githubToken, String.mk (jsTrim cap)]
      | none =>
        match matchCmdArg "show".data text.data with
        | some cap => .call "showRecipe" [githubToken, String.mk (jsTrim cap)]
        | none =>
          match matchCmdArg "delete".data text.data with
          | some cap => .call "deleteRecipe" [githubToken, String.mk (jsTrim cap)]
          | none =>
            if matchCmdExact "lists".data text.data then .call "lists" [githubToken]
            else
              match matchCmdArg "list-show".data text.data with
              | some cap => .call "showList" [githubToken, String.mk (jsTrim cap)]
              | none =>
                match matchCmdArg "list-create".data text.data with
                | some cap => .call "createList" [githubToken, String.mk (jsTrim cap)]
                | none =>
                  match matchListAdd text.data with
                  | some (a, b) =>
                    .call "addRecipeToList" [githubToken, String.mk (jsTrim a), String.mk (jsTrim b)]
                  | none =>
                    if matchCmdExact "help".data text.data then .call "help" []
                    else .reply unknownCommandMsg

/-- Disjunction of the ten command patterns of `getCommandPatterns`. -/
def matchesAnyPattern (text : String) : Bool :=
  (matchCmdArg "add".data text.data).isSome ||
  matchCmdExact "list".data text.data ||
  (matchCmdArg "search".data text.data).isSome ||
  (matchCmdArg "show".data text.data).isSome ||
  (matchCmdArg "delete".data text.data).isSome ||
  matchCmdExact "lists".data text.data ||
  (matchCmdArg "list-show".data text.data).isSome ||
  (matchCmdArg "list-create".data text.data).isSome ||
  (matchListAdd text.data).isSome ||
  matchCmdExact "help".data text.data

/-- The per-message session object held in `sessionStore`. -/
structure Session where
  githubToken : Option String
deriving DecidableEq

/-- Outcome of `handleMessage`: the OAuth-callback path (delegated to
`handleOAuthCallback`, whose token exchange is a network effect outside this
embedding), the initiate-auth reply, or a routed command. -/
inductive HandleResult where
  | oauthCallback (text : String)
  | authReply (text : String)
  | routed (r : RouteResult)
deriving DecidableEq

def HandleResult.isRouted : HandleResult → Bool
  | .routed _ => true
  | _ => false

def oauthNotConfiguredMsg : String :=
  "⚠️ GitHub OAuth is not configured. Please set GITHUB_CLIENT_ID and GITHUB_CLIENT_SECRET in your environment."

def authPromptMsg (authUrl : String) : String :=
  "🔐 To use Plan2Meal, please authenticate with GitHub:\n\n[Click here to authorize](" ++
    authUrl ++ ")\n\nOr reply with your GitHub Personal Access Token if you prefer not to use OAuth."

/-- `initiateAuth` from `index.js`: the authentication prompt when OAuth is
configured, otherwise the not-configured warning.  The generated `state` and
its storage are session bookkeeping with no bearing on the returned text. -/
def initiateAuth (oauthConfigured : Bool) (authUrl : String) : String :=
  if oauthConfigured then authPromptMsg authUrl else oauthNotConfiguredMsg

/-- `handleMessage(message, context)` from `index.js`: trim the message, divert
OAuth callbacks, demand authentication when the session has no GitHub token,
and otherwise route the command. -/
def handleMessage (u : String → Bool) (oauthConfigured : Bool) (authUrl : String)
    (message : String) (sess : Session) : HandleResult :=
  let text := jsTrim message.data
  if leadMatch "/oauth/callback".data text || hasSub "code=".data text then
    .oauthCallback (String.mk text)
  else
    match sess.githubToken with
    | none => .authReply (initiateAuth oauthConfigured authUrl)
    | some tok => .routed (routeCommand u (String.mk text) tok)

theorem isSome_false_eq_none {α : Type} {o : Option α} (h : o.isSome = false) : o = none := by
  cases o <;> simp_all

/-- C9: a text matching none of the ten registered command patterns makes
`routeCommand` return the unknown-command reply, and no backend command
handler is invoked. -/
theorem routeCommand_unknown_command (u : String → Bool) (text githubToken : String)
    (h : matchesAnyPattern text = false) :
    routeCommand u text githubToken = .reply unknownCommandMsg ∧
    (routeCommand u text githubToken).isCall = false := by
  simp only [matchesAnyPattern, Bool.or_eq_false_iff] at h
  obtain ⟨⟨⟨⟨⟨⟨⟨⟨⟨h1, h2⟩, h3⟩, h4⟩, h5⟩, h6⟩, h7⟩, h8⟩, h9⟩, h10⟩ := h
  have e1 := isSome_false_eq_none h1
  have e3 := isSome_false_eq_none h3
  have e4 := isSome_false_eq_none h4
  have e5 := isSome_false_eq_none h5
  have e7 := isSome_false_eq_none h7
  have e8 := isSome_false_eq_none h8
  have e9 := isSome_false_eq_none h9
  refine ⟨?_, ?_⟩ <;>
    simp only [routeCommand, e1, e3, e4, e5, e7, e8, e9, h2, h6, h10,
      Bool.false_eq_true, if_false, RouteResult.isCall]

/-- Witness for C9: the concrete text "hello" matches no pattern and yields
the unknown-command reply. -/
theorem routeCommand_unknown_command_witness :
    routeCommand (fun _ => true) "hello" "tok" = .reply unknownCommandMsg ∧
    (routeCommand (fun _ => true) "hello" "tok").isCall = false :=
  routeCommand_unknown_command (fun _ => true) "hello" "tok" (by decide)

/-- C10 counterexample: the unauthenticated-session gate is keyed on the
*trimmed* text, not on the raw message.  The raw message " /oauth/callback"
(leading space) does not start with "/oauth/callback" and does not contain
"code=", and the session holds no GitHub token, yet `handleMessage` takes the
OAuth-callback path instead of returning the authentication prompt. -/
theorem handleMessage_raw_message_counterexample :
    (Session.mk none).githubToken = none ∧
    leadMatch "/oauth/callback".data " /oauth/callback".data = false ∧
    hasSub "code=".data " /oauth/callback".data = false ∧
    handleMessage (fun _ => true) true "https://example.test/auth" " /oauth/callback"
        (Session.mk none) ≠
      HandleResult.authReply (initiateAuth true "https://example.test/auth") := by
  refine ⟨rfl, by decide, by decide, ?_⟩
  decide

/-- C10 (amended): whenever the session has no GitHub token and the *trimmed*
message neither starts with "/oauth/callback" nor contains "code=",
`handleMessage` returns the initiate-auth response (the authentication prompt
when OAuth is configured); moreover, with a token-less session no message
whatsoever is ever routed to a command handler. -/
theorem handleMessage_auth_gate (u : String → Bool) (oauthConfigured : Bool)
    (authUrl message other : String) (sess : Session)
    (hTok : sess.githubToken = none)
    (hcb : leadMatch "/oauth/callback".data (jsTrim message.data) = false)
    (hcode : hasSub "code=".data (jsTrim message.data) = false) :
    handleMessage u oauthConfigured authUrl message sess =
      HandleResult.authReply (initiateAuth oauthConfigured authUrl) ∧
    (handleMessage u oauthConfigured authUrl other sess).isRouted = false := by
  constructor
  · simp only [handleMessage, hcb, hcode, Bool.or_self, Bool.false_eq_true, if_false, hTok]
  · simp only [handleMessage]
    split
    · rfl
    · rw [hTok]
      rfl

/-- Witness for the amended C10 at a concrete token-less session and
messages. -/
theorem handleMessage_auth_gate_witness :
    handleMessage (fun _ => true) true "https://example.test/auth" "plan2meal list"
        (Session.mk none) =
      HandleResult.authReply (initiateAuth true "https://example.test/auth") ∧
    (handleMessage (fun _ => true) true "https://example.test/auth" "anything"
        (Session.mk none)).isRouted = false :=
  handleMessage_auth_gate (fun _ => true) true "https://example.test/auth" "plan2meal list"
    "anything" (Session.mk none) rfl (by decide) (by decide)

/-! ## iCloud Reminders store client

The repository ships only the skill's documentation for this client
(`skills/worflor/icloud-reminders/SKILL.md`); the Python program it describes
is not part of the source tree.  The operations below are therefore modelled
from the specification's words (§3-§7 of the spec and the API reference in
SKILL.md), as noted in each doc comment. -/

/-- The spec's error taxonomy (§7). -/
inductive CKError where
  | authError
  | networkError
  | notFoundError
  | conflictError
  | validationError
deriving DecidableEq

/-- Modelled from the spec: the five `records/modify` operation types.  The
force variants carry the client's (ignored) version tag, mirroring
"`forceUpdate`/`forceDelete` with the same stale tag". -/
inductive ModOp where
  | create (name : String)
  | update (name : String) (tag : Nat)
  | forceUpdate (name : String) (tag : Nat)
  | delete (name : String) (tag : Nat)
  | forceDelete (name : String) (tag : Nat)
deriving DecidableEq

/-- Server-side view for the version-tag model: each record name with its
current change tag. -/
def lookupTag (store : List (String × Nat)) (n : String) : Option Nat :=
  match store.find? (fun p => p.1 == n) with
  | some p => some p.2
  | none => none

/-- Modelled from the spec: one `modify` operation against the server's
current change tags.  `update` and `delete` require the record's current
version tag and fail with ConflictError if it does not match the server's;
`forceUpdate`/`forceDelete` omit the check and always win on an existing
record; `create` needs no tag and the server assigns a fresh one. -/
def applyOp (store : List (String × Nat)) : ModOp → Except CKError Unit × List (String × Nat)
  | .create n => (.ok (), store ++ [(n, 0)])
  | .update n tag =>
    match lookupTag store n with
    | none => (.error .notFoundError, store)
    | some t =>
      if tag == t then
        (.ok (), store.map (fun p => if p.1 == n then (p.1, p.2 + 1) else p))
      else (.error .conflictError, store)
  | .forceUpdate n _ =>
    match lookupTag store n with
    | none => (.error .notFoundError, store)
    | some _ => (.ok (), store.map (fun p => if p.1 == n then (p.1, p.2 + 1) else p))
  | .delete n tag =>
    match lookupTag store n with
    | none => (.error .notFoundError, store)
    | some t =>
      if tag == t then (.ok (), store.filter (fun p => !(p.1 == n)))
      else (.error .conflictError, store)
  | .forceDelete n _ =>
    match lookupTag store n with
    | none => (.error .notFoundError, store)
    | some _ => (.ok (), store.filter (fun p => !(p.1 == n)))

/-- Modelled from the spec: batched `modify` — the operations run in order,
threading the store, and the result carries one outcome (success or one typed
error) per operation. -/
def modifyBatch (store : List (String × Nat)) :
    List ModOp → List (Except CKError Unit) × List (String × Nat)
  | [] => ([], store)
  | op :: ops =>
    let r := applyOp store op
    let rest := modifyBatch r.2 ops
    (r.1 :: rest.1, rest.2)

/-- A network request issued by the client (only its occurrence matters for
the claims). -/
inductive NetRequest where
  | modifyPriority (p : Int)
deriving DecidableEq

def validPriorities : List Int := [0, 1, 5, 9]

/-- Modelled from the spec: writing a Reminder's Priority field.  The value is
validated client-side against {0, 1, 5, 9}; any other integer is rejected with
ValidationError and no network request is issued (first component: the
requests actually sent). -/
def writePriority (p : Int) : List NetRequest × Except CKError Unit :=
  if validPriorities.contains p then ([NetRequest.modifyPriority p], .ok ())
  else ([], .error .validationError)

/-- Decoded DateComponentsData of an alarm trigger. -/
structure TriggerComponents where
  day : Nat
  hour : Nat
  minute : Nat
deriving DecidableEq

/-- An Alarm record together with its AlarmTrigger's decoded components. -/
structure AlarmRec where
  trigger : TriggerComponents
deriving DecidableEq

/-- The records produced by a create call, as far as the scenario claim needs:
the Reminder's AllDay flag and DueDate plus the linked Alarm records. -/
structure CreatedReminder where
  titleText : String
  allDay : Nat
  dueDate : Option Nat
  alarms : List AlarmRec
deriving DecidableEq

/-- Modelled from the spec: `create` with a due day/time and an alarm lead
time in minutes.  A timed due date sets AllDay=0 and DueDate (milliseconds
since epoch); the single alarm's trigger decodes to the day/hour/minute
components of (due time − lead).  Time is counted in minutes, days being
1440 minutes. -/
def createWithAlarm (title : String) (dueDay dueHour dueMinute leadMinutes : Nat) :
    CreatedReminder :=
  let due := dueDay * 1440 + dueHour * 60 + dueMinute
  let trig := due - leadMinutes
  { titleText := title
    allDay := 0
    dueDate := some (due * 60000)
    alarms := [{ trigger := { day := trig / 1440, hour := trig % 1440 / 60, minute := trig % 60 } }] }

/-- Modelled from the spec: `fetchChanges` returns the batch of records after
the continuation token (absence of a token means start from the beginning),
the next token, and the "more available" flag.  The page size is the server's
choice. -/
def fetchChanges (store : List String) (pageSize : Nat) (tok : Option Nat) :
    List String × Nat × Bool :=
  let i := tok.getD 0
  let page := (store.drop i).take pageSize
  (page, i + page.length, decide (i + page.length < store.length))

/-- The client loop: request, accumulate, repeat while "more available" with
the latest token.  Fuel bounds the number of pages; `store.length + 1` pages
always suffice when the server's pages are nonempty. -/
def fetchLoop (store : List String) (pageSize : Nat) : Nat → Option Nat → List String
  | 0, _ => []
  | fuel + 1, tok =>
    let r := fetchChanges store pageSize tok
    if r.2.2 then r.1 ++ fetchLoop store pageSize fuel (some r.2.1) else r.1

/-- Modelled from the spec: the full snapshot loop, started with no token. -/
def fetchAll (store : List String) (pageSize : Nat) : List String :=
  fetchLoop store pageSize (store.length + 1) none

/-- C2 (spec-modelled): with a stale version tag, `update` and `delete` yield
ConflictError while `forceUpdate` and `forceDelete` with the same stale tag
succeed. -/
theorem staleTag_conflict_force_wins (store : List (String × Nat)) (n : String)
    (t stale : Nat) (hfound : lookupTag store n = some t) (hstale : stale ≠ t) :
    (applyOp store (.update n stale)).1 = .error .conflictError ∧
    (applyOp store (.delete n stale)).1 = .error .conflictError ∧
    (applyOp store (.forceUpdate n stale)).1 = .ok () ∧
    (applyOp store (.forceDelete n stale)).1 = .ok () := by
  have hbe : (stale == t) = false := by simpa using hstale
  refine ⟨?_, ?_, ?_, ?_⟩ <;> simp [applyOp, hfound, hbe]

/-- Witness for C2 at a one-record store whose current tag is 3 and the stale
tag 2. -/
theorem staleTag_conflict_force_wins_witness :
    (applyOp [("Reminder/X", 3)] (.update "Reminder/X" 2)).1 = .error .conflictError ∧
    (applyOp [("Reminder/X", 3)] (.delete "Reminder/X" 2)).1 = .error .conflictError ∧
    (applyOp [("Reminder/X", 3)] (.forceUpdate "Reminder/X" 2)).1 = .ok () ∧
    (applyOp [("Reminder/X", 3)] (.forceDelete "Reminder/X" 2)).1 = .ok () :=
  staleTag_conflict_force_wins [("Reminder/X", 3)] "Reminder/X" 3 2 (by decide) (by decide)

/-- C5 (spec-modelled): a batched `modify` surfaces exactly one outcome per
operation in the batch — a partial failure is never collapsed into one
aggregate error. -/
theorem modifyBatch_per_operation (store : List (String × Nat)) (ops : List ModOp) :
    (modifyBatch store ops).1.length = ops.length := by
  induction ops generalizing store with
  | nil => rfl
  | cons op ops ih => simp [modifyBatch, ih]

/-- C6 (spec-modelled): the Priority field accepts an integer iff it is one of
{0, 1, 5, 9}; any other integer is rejected with ValidationError with no
network request issued. -/
theorem priority_validation (p : Int) :
    ((writePriority p).2 = .ok () ↔ p = 0 ∨ p = 1 ∨ p = 5 ∨ p = 9) ∧
    (¬(p = 0 ∨ p = 1 ∨ p = 5 ∨ p = 9) →
      writePriority p = ([], .error .validationError)) := by
  have hc : validPriorities.contains p = true ↔ (p = 0 ∨ p = 1 ∨ p = 5 ∨ p = 9) := by
    simp [validPriorities]
  constructor
  · rw [writePriority]
    split
    · simp_all
    · simp_all
  · intro hnot
    rw [writePriority, if_neg]
    simpa [validPriorities] using hnot

/-- Witness for C6: the integer 3 is not a legal priority and is rejected with
ValidationError before any request. -/
theorem priority_validation_witness :
    ¬((3 : Int) = 0 ∨ (3 : Int) = 1 ∨ (3 : Int) = 5 ∨ (3 : Int) = 9) ∧
    writePriority 3 = ([], .error .validationError) :=
  ⟨by decide, (priority_validation 3).2 (by decide)⟩

/-- C7 (spec-modelled): creating "Buy milk" due tomorrow at 9:00 with a
15-minute lead alarm yields AllDay=0, a set DueDate, and exactly one alarm
whose trigger decodes to 8:45 on the same day. -/
theorem buy_milk_scenario (today : Nat) :
    (createWithAlarm "Buy milk" (today + 1) 9 0 15).allDay = 0 ∧
    (createWithAlarm "Buy milk" (today + 1) 9 0 15).dueDate.isSome = true ∧
    (createWithAlarm "Buy milk" (today + 1) 9 0 15).alarms =
      [{ trigger := { day := today + 1, hour := 8, minute := 45 } }] := by
  refine ⟨rfl, rfl, ?_⟩
  simp only [createWithAlarm, List.cons.injEq, and_true, AlarmRec.mk.injEq,
    TriggerComponents.mk.injEq]
  refine ⟨?_, ?_, ?_⟩ <;> omega

theorem fetchLoop_drop (store : List String) (p : Nat) (hp : 0 < p) :
    ∀ fuel tok, store.length - tok.getD 0 < fuel →
      fetchLoop store p fuel tok = store.drop (tok.getD 0) := by
  intro fuel
  induction fuel with
  | zero => intro tok h; omega
  | succ fuel ih =>
    intro tok h
    simp only [fetchLoop, fetchChanges]
    by_cases hmore :
        tok.getD 0 + ((store.drop (tok.getD 0)).take p).length < store.length
    · rw [if_pos (by simpa using hmore)]
      have hlen : ((store.drop (tok.getD 0)).take p).length = p := by
        simp only [List.length_take, List.length_drop] at hmore ⊢
        omega
      rw [ih (some (tok.getD 0 + ((store.drop (tok.getD 0)).take p).length)) ?_]
      · have hd : store.drop (tok.getD 0 + ((store.drop (tok.getD 0)).take p).length) =
            (store.drop (tok.getD 0)).drop p := by
          rw [hlen, List.drop_drop, Nat.add_comm]
        simp only [Option.getD_some, hd, List.take_append_drop]
      · simp only [Option.getD_some, List.length_take, List.length_drop] at h hmore ⊢
        omega
    · rw [if_neg (by simpa using hmore)]
      simp only [List.length_take, List.length_drop] at hmore
      have : store.length - tok.getD 0 ≤ p := by omega
      exact List.take_of_length_le (by simp [List.length_drop]; omega)

/-- C4 (spec-modelled): `fetchChanges` started with no token and looped while
"more available", accumulating records, returns exactly the store's records —
in particular a record set whose size equals the store's true record count;
the loop is a pure function of the store, so repeating it without external
mutation yields the same set. -/
theorem fetchAll_complete (store : List String) (p : Nat) (hp : 0 < p) :
    fetchAll store p = store ∧ (fetchAll store p).length = store.length := by
  have h := fetchLoop_drop store p hp (store.length + 1) none (by simp)
  simp only [Option.getD_none, List.drop_zero] at h
  have h' : fetchAll store p = store := h
  exact ⟨h', by rw [h']⟩

/-- Witness for C4 at a three-record store with server page size 2. -/
theorem fetchAll_complete_witness :
    fetchAll ["a", "b", "c"] 2 = ["a", "b", "c"] ∧
    (fetchAll ["a", "b", "c"] 2).length = 3 :=
  fetchAll_complete ["a", "b", "c"] 2 (by decide)

/-- A record in the reference-validation model: name, record type, soft-delete
flag, and the names of the records it references. -/
structure CKRecord where
  name : String
  rtype : String
  deleted : Bool
  refs : List String
deriving DecidableEq

/-- Modelled from the spec: some live (not soft-deleted) record references
`n`. -/
def hasLiveRef (store : List CKRecord) (n : String) : Bool :=
  store.any fun x => !x.deleted && x.refs.contains n

/-- Modelled from the spec: deleting a record still referenced by a live
record fails with ValidationError (the store's VALIDATING_REFERENCE
condition); otherwise the record is soft-deleted — records are marked, never
hard-purged by the client. -/
def deleteRecord (store : List CKRecord) (n : String) : Except CKError (List CKRecord) :=
  if hasLiveRef store n then .error .validationError
  else .ok (store.map fun x => if x.name == n then { x with deleted := true } else x)

/-- Delete a list of record names in order, stopping at the first failure. -/
def deleteSeq (store : List CKRecord) : List String → Except CKError (List CKRecord)
  | [] => .ok store
  | n :: ns =>
    match deleteRecord store n with
    | .error e => .error e
    | .ok s => deleteSeq s ns

/-- Mark a record deleted when its name is listed. -/
def markIf (ns : List String) (x : CKRecord) : CKRecord :=
  if ns.contains x.name then { x with deleted := true } else x

theorem markIf_or_self (ns : List String) (x : CKRecord) :
    markIf ns x = { x with deleted := true } ∨ markIf ns x = x := by
  rw [markIf]
  split
  · exact Or.inl rfl
  · exact Or.inr rfl

theorem markIf_refs (ns : List String) (x : CKRecord) : (markIf ns x).refs = x.refs := by
  rcases markIf_or_self ns x with h | h <;> rw [h]

theorem markIf_live (ns : List String) (x : CKRecord) (h : (markIf ns x).deleted = false) :
    markIf ns x = x ∧ x.deleted = false ∧ x.name ∉ ns := by
  rw [markIf] at h ⊢
  by_cases hc : ns.contains x.name = true
  · rw [if_pos hc] at h
    simp at h
  · rw [if_neg hc]
    rw [if_neg hc] at h
    exact ⟨rfl, h, fun hm => hc (List.elem_iff.mpr hm)⟩

theorem markIf_skip (n : String) (ns : List String) (x : CKRecord) :
    markIf ns (if x.name == n then { x with deleted := true } else x) =
      markIf (n :: ns) x := by
  by_cases hn : x.name = n
  · simp [markIf, hn]
  · have hb : (x.name == n) = false := by simpa using hn
    simp [markIf, List.contains_cons, hb, hn]

theorem hasLiveRef_mark (store : List CKRecord) (n m : String)
    (h : hasLiveRef (store.map fun x =>
      if x.name == n then { x with deleted := true } else x) m = true) :
    hasLiveRef store m = true := by
  simp only [hasLiveRef, List.any_map, List.any_eq_true, Function.comp] at h ⊢
  obtain ⟨x, hx, hcond⟩ := h
  refine ⟨x, hx, ?_⟩
  by_cases hn : (x.name == n) = true
  · rw [if_pos hn] at hcond
    simp at hcond
  · rwa [if_neg hn] at hcond

theorem deleteSeq_cons_ok {store s : List CKRecord} {n : String}
    (hd : deleteRecord store n = .ok s) (ns : List String) :
    deleteSeq store (n :: ns) = deleteSeq s ns := by
  rw [deleteSeq, hd]

theorem deleteSeq_ok_of_noLiveRef (ns : List String) :
    ∀ store : List CKRecord, (∀ n ∈ ns, hasLiveRef store n = false) →
      deleteSeq store ns = .ok (store.map (markIf ns)) := by
  induction ns with
  | nil =>
    intro store _
    have hmk : List.map (markIf []) store = store := by
      rw [show markIf [] = id from funext fun x => by simp [markIf]]
      exact List.map_id store
    rw [deleteSeq, hmk]
  | cons n ns ih =>
    intro store h
    have h0 : hasLiveRef store n = false := h n (List.mem_cons_self n ns)
    have hd : deleteRecord store n = .ok (store.map fun x =>
        if x.name == n then { x with deleted := true } else x) := by
      rw [deleteRecord, if_neg (by simp [h0])]
    rw [deleteSeq_cons_ok hd ns,
      ih _ (fun m hm => by
        rcases hmark : hasLiveRef (store.map fun x =>
            if x.name == n then { x with deleted := true } else x) m with _ | _
        · exact hmark
        · exact absurd (hasLiveRef_mark store n m hmark)
            (by simp [h m (List.mem_cons_of_mem n hm)])),
      List.map_map]
    have hfun : markIf ns ∘ (fun x => if x.name == n then { x with deleted := true } else x) =
        markIf (n :: ns) := funext (markIf_skip n ns)
    rw [hfun]

theorem deleteSeq_append_ok (l2 l1 : List String) :
    ∀ store s : List CKRecord, deleteSeq store l1 = .ok s →
      deleteSeq store (l1 ++ l2) = deleteSeq s l2 := by
  induction l1 with
  | nil =>
    intro store s h
    simp only [deleteSeq] at h
    cases h
    rfl
  | cons n l1 ih =>
    intro store s h
    rw [deleteSeq] at h
    cases hd : deleteRecord store n with
    | error e =>
      rw [hd] at h
      exact Except.noConfusion h
    | ok s1 =>
      rw [hd] at h
      rw [show (n :: l1) ++ l2 = n :: (l1 ++ l2) from rfl, deleteSeq_cons_ok hd (l1 ++ l2)]
      exact ih s1 s h

theorem markIf_name (ns : List String) (x : CKRecord) : (markIf ns x).name = x.name := by
  rcases markIf_or_self ns x with h | h <;> rw [h]

theorem hasLiveRef_false (store : List CKRecord) (n : String)
    (h : ∀ x ∈ store, x.deleted = false → n ∈ x.refs → False) :
    hasLiveRef store n = false := by
  cases hc : hasLiveRef store n with
  | false => rfl
  | true =>
    exfalso
    simp only [hasLiveRef, List.any_eq_true, Bool.and_eq_true] at hc
    obtain ⟨x, hx, hdel, hcont⟩ := hc
    exact h x hx (by simpa using hdel) (List.elem_iff.mp hcont)

/-- C3 (spec-modelled): deleting a Reminder that still has a live Alarm child
record referencing it fails with ValidationError; after its AlarmTrigger
records and then its Alarm records have been deleted (in that order), deleting
the Reminder succeeds.  `alarms` covers the names of every live record
referencing the Reminder, `triggers` those of every live record referencing
any of the alarms, and nothing references a trigger. -/
theorem reminder_delete_order (store : List CKRecord) (r : String)
    (alarms triggers : List String) (alarm : CKRecord)
    (halarm : alarm ∈ store) (hlive : alarm.deleted = false) (href : r ∈ alarm.refs)
    (hA : ∀ x ∈ store, x.deleted = false → r ∈ x.refs → x.name ∈ alarms)
    (hT : ∀ x ∈ store, x.deleted = false → (∃ a ∈ alarms, a ∈ x.refs) → x.name ∈ triggers)
    (hN : ∀ x ∈ store, ∀ t ∈ triggers, t ∉ x.refs) :
    deleteRecord store r = .error .validationError ∧
    ∃ store', deleteSeq store (triggers ++ (alarms ++ [r])) = .ok store' := by
  have href1 : hasLiveRef store r = true := by
    simp only [hasLiveRef, List.any_eq_true]
    refine ⟨alarm, halarm, ?_⟩
    simp [hlive, List.elem_iff, href]
  have s1eq : deleteSeq store triggers = .ok (store.map (markIf triggers)) :=
    deleteSeq_ok_of_noLiveRef triggers store
      (fun t ht => hasLiveRef_false store t (fun x hx _ hr => hN x hx t ht hr))
  have s2eq : deleteSeq (store.map (markIf triggers)) alarms =
      .ok ((store.map (markIf triggers)).map (markIf alarms)) :=
    deleteSeq_ok_of_noLiveRef alarms _ (fun a ha =>
      hasLiveRef_false _ a (fun x hx hdel hrefs => by
        obtain ⟨y, hy, rfl⟩ := List.mem_map.mp hx
        obtain ⟨_, hydel, hyns⟩ := markIf_live triggers y hdel
        rw [markIf_refs] at hrefs
        exact hyns (hT y hy hydel ⟨a, ha, hrefs⟩)))
  have s3 : hasLiveRef ((store.map (markIf triggers)).map (markIf alarms)) r = false :=
    hasLiveRef_false _ r (fun x hx hdel hrefs => by
      obtain ⟨z, hz, rfl⟩ := List.mem_map.mp hx
      obtain ⟨y, hy, rfl⟩ := List.mem_map.mp hz
      obtain ⟨_, hdel2, hzal⟩ := markIf_live alarms _ hdel
      obtain ⟨_, hydel, _⟩ := markIf_live triggers y hdel2
      rw [markIf_refs, markIf_refs] at hrefs
      rw [markIf_name] at hzal
      exact hzal (hA y hy hydel hrefs))
  have hd : deleteRecord ((store.map (markIf triggers)).map (markIf alarms)) r =
      .ok (((store.map (markIf triggers)).map (markIf alarms)).map
        fun x => if x.name == r then { x with deleted := true } else x) := by
    rw [deleteRecord, if_neg (by rw [s3]; simp)]
  refine ⟨by rw [deleteRecord, if_pos href1], ?_⟩
  rw [deleteSeq_append_ok (alarms ++ [r]) triggers store _ s1eq,
    deleteSeq_append_ok [r] alarms _ _ s2eq,
    deleteSeq_cons_ok hd []]
  exact ⟨_, rfl⟩

/-- Witness for C3 at the canonical three-record store: one Reminder, one live
Alarm referencing it, one AlarmTrigger referencing the Alarm. -/
theorem reminder_delete_order_witness :
    deleteRecord
      [CKRecord.mk "Reminder/R" "Reminder" false [],
       CKRecord.mk "Alarm/A" "Alarm" false ["Reminder/R"],
       CKRecord.mk "AlarmTrigger/T" "AlarmTrigger" false ["Alarm/A"]]
      "Reminder/R" = .error .validationError ∧
    ∃ store', deleteSeq
      [CKRecord.mk "Reminder/R" "Reminder" false [],
       CKRecord.mk "Alarm/A" "Alarm" false ["Reminder/R"],
       CKRecord.mk "AlarmTrigger/T" "AlarmTrigger" false ["Alarm/A"]]
      (["AlarmTrigger/T"] ++ (["Alarm/A"] ++ ["Reminder/R"])) = .ok store' :=
  reminder_delete_order
    [CKRecord.mk "Reminder/R" "Reminder" false [],
     CKRecord.mk "Alarm/A" "Alarm" false ["Reminder/R"],
     CKRecord.mk "AlarmTrigger/T" "AlarmTrigger" false ["Alarm/A"]]
    "Reminder/R" ["Alarm/A"] ["AlarmTrigger/T"]
    (CKRecord.mk "Alarm/A" "Alarm" false ["Reminder/R"])
    (by decide) rfl (by decide) (by decide) (by decide) (by decide)

/-! ### Structured text fields (TitleDocument / NotesDocument)

Modelled from the spec: the write path is base64(compress(protobuf)) where the
protobuf envelope is: outer message (field 1 varint 0; field 2 the styled-text
container), container (field 1 varint 0; field 2 varint 0; field 3 the
text-content message), text content (field 2 the text bytes; optional later
fields carrying styling).  The compression stage of the reverse-engineered
format is abstracted as an inverse pair of functions, and plain text is
represented by its byte sequence. -/

/-- Protobuf base-128 varint encoding (little-endian groups of 7 bits). -/
def encodeVarint (n : Nat) : List Nat :=
  if h : n < 128 then [n] else (n % 128 + 128) :: encodeVarint (n / 128)
decreasing_by exact Nat.div_lt_self (by omega) (by omega)

/-- Varint decoding; returns the value and the remaining bytes. -/
def parseVarint : List Nat → Option (Nat × List Nat)
  | [] => none
  | b :: rest =>
    if b < 128 then some (b, rest)
    else
      match parseVarint rest with
      | some (n, r) => some (b - 128 + 128 * n, r)
      | none => none

theorem parseVarint_encode (n : Nat) : ∀ r, parseVarint (encodeVarint n ++ r) = some (n, r) := by
  induction n using Nat.strong_induction_on with
  | _ n ih =>
    intro r
    rw [encodeVarint]
    by_cases h : n < 128
    · rw [dif_pos h]
      simp [parseVarint, h]
    · rw [dif_neg h]
      simp only [List.cons_append, parseVarint, List.append_eq]
      rw [if_neg (by omega), ih (n / 128) (Nat.div_lt_self (by omega) (by omega)) r]
      show some (n % 128 + 128 - 128 + 128 * (n / 128), r) = some (n, r)
      have : n % 128 + 128 - 128 + 128 * (n / 128) = n := by omega
      rw [this]

theorem encodeVarint_bytes_lt (n : Nat) : ∀ b ∈ encodeVarint n, b < 256 := by
  induction n using Nat.strong_induction_on with
  | _ n ih =>
    intro b hb
    rw [encodeVarint] at hb
    by_cases h : n < 128
    · rw [dif_pos h] at hb
      simp only [List.mem_singleton] at hb
      omega
    · rw [dif_neg h] at hb
      rcases List.mem_cons.mp hb with rfl | hb
      · omega
      · exact ih (n / 128) (Nat.div_lt_self (by omega) (by omega)) b hb

/-- The base64 alphabet. -/
def b64table : List Char :=
  "ABCDEFGHIJKLMNOPQRSTUVWXYZabcdefghijklmnopqrstuvwxyz0123456789+/".data

def b64char (n : Nat) : Char := b64table.getD n '?'

def b64index (c : Char) : Option Nat := b64table.findIdx? (fun x => x == c)

/-- Standard base64 of a byte list, with '=' padding. -/
def b64encode : List Nat → List Char
  | [] => []
  | [a] => [b64char (a / 4), b64char (a % 4 * 16), '=', '=']
  | [a, b] => [b64char (a / 4), b64char (a % 4 * 16 + b / 16), b64char (b % 16 * 4), '=']
  | a :: b :: c :: rest =>
    b64char (a / 4) :: b64char (a % 4 * 16 + b / 16) :: b64char (b % 16 * 4 + c / 64) ::
      b64char (c % 64) :: b64encode rest

/-- Base64 decoding, rejecting malformed input. -/
def b64decode : List Char → Option (List Nat)
  | [] => some []
  | c1 :: c2 :: c3 :: c4 :: rest =>
    match b64index c1, b64index c2 with
    | some a, some b =>
      if c3 = '=' then
        if c4 = '=' ∧ rest = [] then some [a * 4 + b / 16] else none
      else
        match b64index c3 with
        | some c =>
          if c4 = '=' then
            if rest = [] then some [a * 4 + b / 16, b % 16 * 16 + c / 4] else none
          else
            match b64index c4, b64decode rest with
            | some d, some bs =>
              some ((a * 4 + b / 16) :: (b % 16 * 16 + c / 4) :: (c % 4 * 64 + d) :: bs)
            | _, _ => none
        | none => none
    | _, _ => none
  | _ => none

theorem b64index_char : ∀ i < 64, b64index (b64char i) = some i := by decide

theorem b64char_ne_pad : ∀ i < 64, b64char i ≠ '=' := by decide

theorem b64_roundtrip : ∀ bs : List Nat, (∀ b ∈ bs, b < 256) →
    b64decode (b64encode bs) = some bs
  | [], _ => rfl
  | [a], h => by
    have ha : a < 256 := h a (by simp)
    have h1 : a / 4 * 4 + a % 4 * 16 / 16 = a := by omega
    simp [b64decode, b64encode, b64index_char (a / 4) (by omega),
      b64index_char (a % 4 * 16) (by omega), h1]
    all_goals omega
  | [a, b], h => by
    have ha : a < 256 := h a (by simp)
    have hb : b < 256 := h b (by simp)
    have h1 : a / 4 * 4 + (a % 4 * 16 + b / 16) / 16 = a := by omega
    have h2 : (a % 4 * 16 + b / 16) % 16 * 16 + b % 16 * 4 / 4 = b := by omega
    simp [b64decode, b64encode, b64index_char (a / 4) (by omega),
      b64index_char (a % 4 * 16 + b / 16) (by omega),
      b64index_char (b % 16 * 4) (by omega),
      b64char_ne_pad (b % 16 * 4) (by omega), h1, h2]
    all_goals omega
  | a :: b :: c :: rest, h => by
    have ha : a < 256 := h a (by simp)
    have hb : b < 256 := h b (by simp)
    have hc : c < 256 := h c (by simp)
    have hrec := b64_roundtrip rest (fun x hx => h x (by simp [hx]))
    have h1 : a / 4 * 4 + (a % 4 * 16 + b / 16) / 16 = a := by omega
    have h2 : (a % 4 * 16 + b / 16) % 16 * 16 + (b % 16 * 4 + c / 64) / 4 = b := by omega
    have h3 : (b % 16 * 4 + c / 64) % 4 * 64 + c % 64 = c := by omega
    simp [b64decode, b64encode, b64index_char (a / 4) (by omega),
      b64index_char (a % 4 * 16 + b / 16) (by omega),
      b64index_char (b % 16 * 4 + c / 64) (by omega),
      b64index_char (c % 64) (by omega),
      b64char_ne_pad (b % 16 * 4 + c / 64) (by omega),
      b64char_ne_pad (c % 64) (by omega), hrec, h1, h2, h3]

/-- Skip the payload of a protobuf field of the given wire type. -/
def skipFieldPayload (wt : Nat) (bs : List Nat) : Option (List Nat) :=
  if wt = 0 then
    match parseVarint bs with
    | some (_, r) => some r
    | none => none
  else if wt = 1 then
    if 8 ≤ bs.length then some (bs.drop 8) else none
  else if wt = 2 then
    match parseVarint bs with
    | some (len, r) => if len ≤ r.length then some (r.drop len) else none
    | none => none
  else if wt = 5 then
    if 4 ≤ bs.length then some (bs.drop 4) else none
  else none

/-- Scan a protobuf message for the first length-delimited field numbered
`target`, skipping (tolerating) any other field; fuel bounds the number of
fields examined (the byte count always suffices). -/
def findField : Nat → Nat → List Nat → Option (List Nat)
  | 0, _, _ => none
  | fuel + 1, target, bs =>
    match parseVarint bs with
    | none => none
    | some (key, rest) =>
      if key / 8 = target ∧ key % 8 = 2 then
        match parseVarint rest with
        | some (len, r) => if len ≤ r.length then some (r.take len) else none
        | none => none
      else
        match skipFieldPayload (key % 8) rest with
        | some r => findField fuel target r
        | none => none

/-- The text-content message: field 2 carries the text bytes. -/
def titleContent (text : List Nat) : List Nat :=
  18 :: (encodeVarint text.length ++ text)

/-- The text-content message with a trailing styling field (field 3). -/
def titleContentStyled (text styling : List Nat) : List Nat :=
  18 :: (encodeVarint text.length ++ (text ++ (26 :: (encodeVarint styling.length ++ styling))))

/-- The styled-text container: field 1 varint 0, field 2 varint 0, field 3
the text-content message. -/
def titleContainer (content : List Nat) : List Nat :=
  8 :: 0 :: 16 :: 0 :: 26 :: (encodeVarint content.length ++ content)

/-- The outer envelope: field 1 varint 0, field 2 the container. -/
def titleOuter (container : List Nat) : List Nat :=
  8 :: 0 :: 18 :: (encodeVarint container.length ++ container)

/-- Modelled from the spec: the protobuf wrapper written on every text
write. -/
def encodeTitleProto (text : List Nat) : List Nat :=
  titleOuter (titleContainer (titleContent text))

/-- Modelled from the spec: the same wrapper with optional styling metadata
present in the text-content message. -/
def encodeTitleProtoStyled (text styling : List Nat) : List Nat :=
  titleOuter (titleContainer (titleContentStyled text styling))

/-- Modelled from the spec: the read path — find the container (outer field
2), the text-content message (container field 3), then the text (content
field 2), tolerating any other fields. -/
def protoDecodeTitle (bs : List Nat) : Option (List Nat) :=
  (findField bs.length 2 bs).bind fun container =>
    (findField container.length 3 container).bind fun content =>
      findField content.length 2 content

theorem take_len_append {α : Type} (l1 l2 : List α) : (l1 ++ l2).take l1.length = l1 := by
  induction l1 with
  | nil => simp
  | cons a l ih => simp [ih]

theorem findField_here (k target : Nat) (payload extra : List Nat) (hkey : target * 8 + 2 < 128) :
    findField (k + 1) target
      ((target * 8 + 2) :: (encodeVarint payload.length ++ (payload ++ extra))) = some payload := by
  rw [findField]
  simp only [parseVarint, if_pos hkey]
  rw [if_pos (by omega : (target * 8 + 2) / 8 = target ∧ (target * 8 + 2) % 8 = 2)]
  rw [parseVarint_encode]
  show (if payload.length ≤ (payload ++ extra).length then
    some (List.take payload.length (payload ++ extra)) else none) = some payload
  rw [if_pos (by simp), take_len_append]

theorem findField_skip_varint (k target key v : Nat) (rest : List Nat)
    (hkey : key < 128) (hwt : key % 8 = 0) (hv : v < 128) :
    findField (k + 1) target (key :: v :: rest) = findField k target rest := by
  rw [findField]
  simp only [parseVarint, if_pos hkey]
  rw [if_neg (by omega)]
  rw [hwt]
  simp [skipFieldPayload, parseVarint, hv]

theorem findField_titleOuter (c : List Nat) :
    findField (titleOuter c).length 2 (titleOuter c) = some c := by
  have hge : 2 ≤ (titleOuter c).length := by
    simp [titleOuter]
  obtain ⟨k, hk⟩ : ∃ k, (titleOuter c).length = (k + 1) + 1 :=
    ⟨(titleOuter c).length - 2, by omega⟩
  rw [hk]
  show findField ((k + 1) + 1) 2 (8 :: 0 :: (18 :: (encodeVarint c.length ++ c))) = some c
  rw [findField_skip_varint (k + 1) 2 8 0 _ (by omega) (by omega) (by omega)]
  simpa using findField_here k 2 c [] (by omega)

theorem findField_titleContainer (c : List Nat) :
    findField (titleContainer c).length 3 (titleContainer c) = some c := by
  have hge : 3 ≤ (titleContainer c).length := by
    simp [titleContainer]
  obtain ⟨k, hk⟩ : ∃ k, (titleContainer c).length = ((k + 1) + 1) + 1 :=
    ⟨(titleContainer c).length - 3, by omega⟩
  rw [hk]
  show findField (((k + 1) + 1) + 1) 3
    (8 :: 0 :: (16 :: 0 :: (26 :: (encodeVarint c.length ++ c)))) = some c
  rw [findField_skip_varint (k + 1 + 1) 3 8 0 _ (by omega) (by omega) (by omega)]
  rw [findField_skip_varint (k + 1) 3 16 0 _ (by omega) (by omega) (by omega)]
  simpa using findField_here k 3 c [] (by omega)

theorem findField_titleContent (text : List Nat) :
    findField (titleContent text).length 2 (titleContent text) = some text := by
  have hge : 1 ≤ (titleContent text).length := by
    simp [titleContent]
  obtain ⟨k, hk⟩ : ∃ k, (titleContent text).length = k + 1 :=
    ⟨(titleContent text).length - 1, by omega⟩
  rw [hk, titleContent]
  simpa using findField_here k 2 text [] (by omega)

theorem findField_titleContentStyled (text styling : List Nat) :
    findField (titleContentStyled text styling).length 2 (titleContentStyled text styling) =
      some text := by
  have hge : 1 ≤ (titleContentStyled text styling).length := by
    simp [titleContentStyled]
  obtain ⟨k, hk⟩ : ∃ k, (titleContentStyled text styling).length = k + 1 :=
    ⟨(titleContentStyled text styling).length - 1, by omega⟩
  rw [hk, titleContentStyled]
  exact findField_here k 2 text (26 :: (encodeVarint styling.length ++ styling)) (by omega)

theorem protoDecodeTitle_plain (text : List Nat) :
    protoDecodeTitle (encodeTitleProto text) = some text := by
  simp [protoDecodeTitle, encodeTitleProto, findField_titleOuter, findField_titleContainer,
    findField_titleContent]

theorem protoDecodeTitle_styled (text styling : List Nat) :
    protoDecodeTitle (encodeTitleProtoStyled text styling) = some text := by
  simp [protoDecodeTitle, encodeTitleProtoStyled, findField_titleOuter,
    findField_titleContainer, findField_titleContentStyled]

theorem cons_bytes_lt {x : Nat} (hx : x < 256) {l : List Nat} (hl : ∀ b ∈ l, b < 256) :
    ∀ b ∈ x :: l, b < 256 := by
  intro b hb
  rcases List.mem_cons.mp hb with rfl | h
  · exact hx
  · exact hl b h

theorem append_bytes_lt {l1 l2 : List Nat} (h1 : ∀ b ∈ l1, b < 256) (h2 : ∀ b ∈ l2, b < 256) :
    ∀ b ∈ l1 ++ l2, b < 256 := by
  intro b hb
  rcases List.mem_append.mp hb with h | h
  · exact h1 b h
  · exact h2 b h

theorem titleContent_bytes_lt (text : List Nat) (h : ∀ b ∈ text, b < 256) :
    ∀ b ∈ titleContent text, b < 256 :=
  cons_bytes_lt (by omega) (append_bytes_lt (encodeVarint_bytes_lt _) h)

theorem titleContentStyled_bytes_lt (text styling : List Nat)
    (h : ∀ b ∈ text, b < 256) (hs : ∀ b ∈ styling, b < 256) :
    ∀ b ∈ titleContentStyled text styling, b < 256 :=
  cons_bytes_lt (by omega)
    (append_bytes_lt (encodeVarint_bytes_lt _)
      (append_bytes_lt h
        (cons_bytes_lt (by omega) (append_bytes_lt (encodeVarint_bytes_lt _) hs))))

theorem titleContainer_bytes_lt (c : List Nat) (h : ∀ b ∈ c, b < 256) :
    ∀ b ∈ titleContainer c, b < 256 :=
  cons_bytes_lt (by omega) (cons_bytes_lt (by omega) (cons_bytes_lt (by omega)
    (cons_bytes_lt (by omega) (cons_bytes_lt (by omega)
      (append_bytes_lt (encodeVarint_bytes_lt _) h)))))

theorem titleOuter_bytes_lt (c : List Nat) (h : ∀ b ∈ c, b < 256) :
    ∀ b ∈ titleOuter c, b < 256 :=
  cons_bytes_lt (by omega) (cons_bytes_lt (by omega) (cons_bytes_lt (by omega)
    (append_bytes_lt (encodeVarint_bytes_lt _) h)))

theorem encodeTitleProto_bytes_lt (text : List Nat) (h : ∀ b ∈ text, b < 256) :
    ∀ b ∈ encodeTitleProto text, b < 256 :=
  titleOuter_bytes_lt _ (titleContainer_bytes_lt _ (titleContent_bytes_lt _ h))

theorem encodeTitleProtoStyled_bytes_lt (text styling : List Nat)
    (h : ∀ b ∈ text, b < 256) (hs : ∀ b ∈ styling, b < 256) :
    ∀ b ∈ encodeTitleProtoStyled text styling, b < 256 :=
  titleOuter_bytes_lt _ (titleContainer_bytes_lt _ (titleContentStyled_bytes_lt _ _ h hs))

/-- Modelled from the spec: the TitleDocument/NotesDocument write path —
protobuf envelope, compression, base64. -/
def encodeTitleDocument (comp : List Nat → List Nat) (text : List Nat) : List Char :=
  b64encode (comp (encodeTitleProto text))

/-- Modelled from the spec: the write path with optional styling metadata. -/
def encodeTitleDocumentStyled (comp : List Nat → List Nat) (text styling : List Nat) :
    List Char :=
  b64encode (comp (encodeTitleProtoStyled text styling))

/-- Modelled from the spec: the read path — base64 decode, decompress, then
extract the text from the envelope, tolerating optional styling fields. -/
def decodeTitleDocument (decomp : List Nat → Option (List Nat)) (s : List Char) :
    Option (List Nat) :=
  (b64decode s).bind fun bs => (decomp bs).bind fun pb => protoDecodeTitle pb

/-- C1 (spec-modelled): for every plain text (as bytes) and any inverse
compression pair, encoding the structured text field and decoding it back
recovers the original text; the decoder tolerates the optional styling fields
(styled variant) but does not require them (plain variant). -/
theorem titleDocument_roundtrip (comp : List Nat → List Nat)
    (decomp : List Nat → Option (List Nat)) (text styling : List Nat)
    (hinv : ∀ bs, decomp (comp bs) = some bs)
    (hbound : ∀ bs, (∀ b ∈ bs, b < 256) → ∀ b ∈ comp bs, b < 256)
    (htext : ∀ b ∈ text, b < 256) (hstyle : ∀ b ∈ styling, b < 256) :
    decodeTitleDocument decomp (encodeTitleDocument comp text) = some text ∧
    decodeTitleDocument decomp (encodeTitleDocumentStyled comp text styling) = some text := by
  constructor
  · rw [decodeTitleDocument, encodeTitleDocument,
      b64_roundtrip (comp (encodeTitleProto text))
        (hbound _ (encodeTitleProto_bytes_lt text htext))]
    simp [hinv, protoDecodeTitle_plain]
  · rw [decodeTitleDocument, encodeTitleDocumentStyled,
      b64_roundtrip (comp (encodeTitleProtoStyled text styling))
        (hbound _ (encodeTitleProtoStyled_bytes_lt text styling htext hstyle))]
    simp [hinv, protoDecodeTitle_styled]

/-- Witness for C1 with the identity compression pair, the text bytes "Hi"
and a one-byte styling payload. -/
theorem titleDocument_roundtrip_witness :
    decodeTitleDocument some (encodeTitleDocument (fun bs => bs) [72, 105]) = some [72, 105] ∧
    decodeTitleDocument some
      (encodeTitleDocumentStyled (fun bs => bs) [72, 105] [7]) = some [72, 105] :=
  titleDocument_roundtrip (fun bs => bs) some [72, 105] [7]
    (fun _ => rfl) (fun _ h => h) (by decide) (by decide)
